import Mathlib

/-!
Verification of the ResumeQueryAgent pipeline.

This file is a shallow embedding of the pure data-processing core of the
repository (the Record Normalizer and Batch Ingestion Pipeline of
`pdf_to_json.py`, and the evidence-merge and answer-display steps of
`json_resume_query.py`), together with theorems settling the spec claims.

Python strings are modelled as Lean `String`, but every string operation used
by the code (`re.split`, `str.strip`, `str.lower`, string comparison,
`pathlib.PurePath.stem`) is implemented here explicitly over `String.data`
(a `List Char`), so that every definition is executable by the kernel.
-/

namespace ResumeQuery

/-! ## Basic Python string operations -/

/-- Characters stripped by Python `str.strip()` (the ASCII whitespace set:
space, tab, newline, carriage return, vertical tab 0x0B, form feed 0x0C). -/
def pyIsSpace (c : Char) : Bool :=
  c == ' ' || c == '\t' || c == '\n' || c == '\r' || c.toNat == 11 || c.toNat == 12

/-- Python `str.strip()`: remove leading and trailing whitespace. -/
def pyTrim (s : String) : String :=
  ⟨((s.data.dropWhile pyIsSpace).reverse.dropWhile pyIsSpace).reverse⟩

/-- Splitting a character list at every character satisfying `p`, keeping empty
pieces, exactly like Python `re.split` with a single-character class: the
number of pieces is one more than the number of separator occurrences. -/
def pySplitCh (p : Char → Bool) : List Char → List (List Char)
  | [] => [[]]
  | c :: rest =>
    if p c then [] :: pySplitCh p rest
    else
      match pySplitCh p rest with
      | [] => [[c]]
      | t :: ts => (c :: t) :: ts

/-- The delimiter class of `re.split(r"[(),]", skill)` in `normalize_skills`. -/
def skillDelim (c : Char) : Bool := c == '(' || c == ')' || c == ','

/-- Code point of a character after Python `str.lower()` (ASCII case fold:
the resume pipeline only ever compares by `key=str.lower`). -/
def lowerVal (c : Char) : Nat :=
  if 65 ≤ c.toNat ∧ c.toNat ≤ 90 then c.toNat + 32 else c.toNat

/-- Lexicographic ≤ on code-point lists: Python string comparison. -/
def lexLe : List Nat → List Nat → Bool
  | [], _ => true
  | _ :: _, [] => false
  | a :: as, b :: bs => if a < b then true else if b < a then false else lexLe as bs

/-- The comparison performed by `sorted(..., key=str.lower)`. -/
def lowerLeB (a b : String) : Bool := lexLe (a.data.map lowerVal) (b.data.map lowerVal)

/-- `lowerLeB` as a relation, so Mathlib's sorting theory applies. -/
def lowerLe (a b : String) : Prop := lowerLeB a b = true

instance : DecidableRel lowerLe :=
  fun a b => inferInstanceAs (Decidable (lowerLeB a b = true))

theorem lexLe_total : ∀ a b : List Nat, lexLe a b = true ∨ lexLe b a = true := by
  intro a
  induction a with
  | nil => intro b; left; rfl
  | cons x as ih =>
    intro b
    cases b with
    | nil => right; rfl
    | cons y bs =>
      rcases Nat.lt_trichotomy x y with h | h | h
      · left; simp [lexLe, h]
      · subst h
        rcases ih bs with h' | h'
        · left; simp [lexLe, h']
        · right; simp [lexLe, h']
      · right; simp [lexLe, h]

theorem lexLe_trans :
    ∀ a b c : List Nat, lexLe a b = true → lexLe b c = true → lexLe a c = true := by
  intro a
  induction a with
  | nil => intro b c _ _; rfl
  | cons x as ih =>
    intro b c hab hbc
    cases b with
    | nil => simp [lexLe] at hab
    | cons y bs =>
      cases c with
      | nil => simp [lexLe] at hbc
      | cons z cs =>
        rcases Nat.lt_trichotomy x y with hxy | hxy | hxy
        · rcases Nat.lt_trichotomy y z with hyz | hyz | hyz
          · have : x < z := Nat.lt_trans hxy hyz
            simp [lexLe, this]
          · subst hyz; simp [lexLe, hxy]
          · simp [lexLe, hyz, Nat.lt_asymm hyz] at hbc
        · subst hxy
          rcases Nat.lt_trichotomy x z with hyz | hyz | hyz
          · simp [lexLe, hyz]
          · subst hyz
            simp [lexLe, Nat.lt_irrefl] at hab hbc ⊢
            exact ih bs cs hab hbc
          · simp [lexLe, hyz, Nat.lt_asymm hyz] at hbc
        · simp [lexLe, hxy, Nat.lt_asymm hxy] at hab

instance : IsTotal String lowerLe :=
  ⟨fun a b => lexLe_total (a.data.map lowerVal) (b.data.map lowerVal)⟩

instance : IsTrans String lowerLe :=
  ⟨fun _ _ _ hab hbc => lexLe_trans _ _ _ hab hbc⟩

/-! ## `set` and `sorted` as used by the code

`list(sorted(set(xs), key=str.lower))` deduplicates by exact string equality
(a Python `set` of strings) and then sorts by the case-folded key.  The
iteration order of a Python `set` is unspecified, so every theorem below about
sorted output is stated in a way that does not depend on the relative order of
distinct strings with equal case-folded keys. -/

/-- Deduplication by exact equality, keeping the first occurrence of each
string (models building a Python `set` from a list, up to the unspecified
iteration order, which the theorems below never rely on between strings with
equal sort keys). -/
def pyDedup : List String → List String
  | [] => []
  | a :: l => a :: (pyDedup l).filter (fun b => b != a)

/-- Python `sorted(..., key=str.lower)` (a stable comparison sort). -/
def pySortCI (l : List String) : List String := List.insertionSort lowerLe l

theorem mem_pyDedup {s : String} : ∀ {l : List String}, s ∈ pyDedup l ↔ s ∈ l := by
  intro l
  induction l with
  | nil => simp [pyDedup]
  | cons a l ih =>
    by_cases h : s = a
    · subst h; simp [pyDedup]
    · simp [pyDedup, List.mem_filter, h, ih]

theorem nodup_pyDedup : ∀ l : List String, (pyDedup l).Nodup := by
  intro l
  induction l with
  | nil => simp [pyDedup]
  | cons a l ih =>
    refine List.Nodup.cons ?_ (ih.filter _)
    intro hmem
    have := (List.mem_filter.mp hmem).2
    simp at this

/-! ## Record Normalizer: `normalize_skills` (`pdf_to_json.py`, lines 49–57) -/

/-- The token stream produced by the loop body of `normalize_skills`: each
skill string is split on `(`, `)` and `,`, each piece stripped, empty pieces
discarded. -/
def skillTokens (skills : List String) : List String :=
  skills.flatMap (fun sk =>
    ((pySplitCh skillDelim sk.data).map (fun cs => pyTrim ⟨cs⟩)).filter (fun t => t != ""))

/-- `normalize_skills` (`pdf_to_json.py` line 57):
`list(sorted(set(normalized), key=str.lower))`. -/
def normalize_skills (skills : List String) : List String :=
  pySortCI (pyDedup (skillTokens skills))

theorem nodup_normalize_skills (skills : List String) : (normalize_skills skills).Nodup :=
  (List.perm_insertionSort lowerLe (pyDedup (skillTokens skills))).symm.nodup
    (nodup_pyDedup _)

theorem sorted_normalize_skills (skills : List String) :
    (normalize_skills skills).Sorted lowerLe :=
  List.sorted_insertionSort lowerLe _

theorem mem_normalize_skills {s : String} {skills : List String} :
    s ∈ normalize_skills skills ↔ s ∈ skillTokens skills :=
  (List.mem_insertionSort lowerLe).trans mem_pyDedup

/-- C1 (counterexample).  The claim states that `normalize_skills` deduplicates
case-insensitively and that `["Python (Django, Flask)", "python"]` normalizes
to `["Django", "Flask", "Python"]`.  In the source, line 57 is
`list(sorted(set(normalized), key=str.lower))`: a Python `set` of strings
deduplicates by exact string equality, so `"Python"` and `"python"` both
survive and the output has four elements, not three.  (The two case-variants
have equal sort keys, so their relative order depends on the unspecified set
iteration order; the length is order-independent.) -/
theorem C1_normalize_counterexample :
    (normalize_skills ["Python (Django, Flask)", "python"]).length = 4 ∧
    normalize_skills ["Python (Django, Flask)", "python"] ≠ ["Django", "Flask", "Python"] := by
  constructor
  · decide
  · decide

/-- C1 (amended).  `normalize_skills` splits each skill string on parenthesis
and comma delimiters, trims each piece, discards empty pieces, deduplicates by
EXACT string equality (case-sensitively — not case-insensitively as claimed),
and sorts the result case-insensitively.  For the example input
`["Python (Django, Flask)", "python"]` the output therefore keeps both
`"Python"` and `"python"` (four entries in all). -/
theorem C1_normalize_amended (skills : List String) :
    (normalize_skills skills).Sorted lowerLe
    ∧ (normalize_skills skills).Nodup
    ∧ (∀ s, s ∈ normalize_skills skills ↔ s ∈ skillTokens skills)
    ∧ (normalize_skills ["Python (Django, Flask)", "python"]).length = 4
    ∧ "Python" ∈ normalize_skills ["Python (Django, Flask)", "python"]
    ∧ "python" ∈ normalize_skills ["Python (Django, Flask)", "python"]
    ∧ "Django" ∈ normalize_skills ["Python (Django, Flask)", "python"]
    ∧ "Flask" ∈ normalize_skills ["Python (Django, Flask)", "python"] := by
  refine ⟨sorted_normalize_skills skills, nodup_normalize_skills skills,
    fun s => mem_normalize_skills, by decide, by decide, by decide, by decide, by decide⟩

/-- C1 (witness): the amended theorem instantiated at the example input. -/
theorem C1_normalize_amended_witness :
    (normalize_skills ["Python (Django, Flask)", "python"]).length = 4 :=
  (C1_normalize_amended []).2.2.2.1

/-! ## The extracted raw field map (`parsed_core` in `convert_pdfs_to_json`)

`parsed_core` is the JSON object returned by the extraction call, after the
`.get(key, default)` defaulting the code applies at every read site (missing
fields have already been replaced by their defaults: empty string / empty
list).  The code only inspects `skills`, `projects[*].technologies` and
`certifications`; every other field is passed through verbatim. -/

/-- One entry of the prompt's `education` schema; passed through verbatim. -/
structure EducationEntry where
  degree : String
  institution : String
  graduation_year : String
deriving DecidableEq

/-- One entry of the prompt's `work_experience` schema; passed through verbatim. -/
structure WorkEntry where
  company_name : String
  position : String
  duration : String
  responsibilities : List String
deriving DecidableEq

/-- One entry of `projects`.  The keyword loop reads only
`proj.get("technologies", [])`; `name` and `description` pass through. -/
structure Project where
  pname : String
  description : String
  technologies : List String
deriving DecidableEq

/-- One entry of `certifications`.  The code branches on the runtime type:
a JSON object (it then reads `cert.get("name", "")`), a JSON string, or
anything else (silently ignored by the keyword loop). -/
inductive CertEntry where
  | asDict (name : String)
  | asStr (s : String)
  | otherJson
deriving DecidableEq

/-- The raw extracted field map for one resume, with `.get` defaults applied. -/
structure RawResume where
  name : String := ""
  email : String := ""
  phone : String := ""
  location : String := ""
  linkedin : String := ""
  github : String := ""
  designation : String := ""
  education : List EducationEntry := []
  work_experience : List WorkEntry := []
  skills : List String := []
  certifications : List CertEntry := []
  projects : List Project := []
  languages : List String := []
deriving DecidableEq

/-! ## Keyword gathering (`pdf_to_json.py`, lines 82–97 and 127) -/

/-- Lines 86–88: every technology tag of every project, stripped — nothing
else: no delimiter splitting and no emptiness filter. -/
def techTokens (parsed : RawResume) : List String :=
  parsed.projects.flatMap (fun p => p.technologies.map pyTrim)

/-- Lines 91–97: a dict certification contributes its stripped `name` only if
non-empty; a string certification contributes its stripped text
unconditionally (even when empty); other JSON values contribute nothing. -/
def certName : CertEntry → Option String
  | .asDict n => if pyTrim n = "" then none else some (pyTrim n)
  | .asStr s => some (pyTrim s)
  | .otherJson => none

def certTokens (parsed : RawResume) : List String :=
  parsed.certifications.filterMap certName

/-- Lines 82–97 and 127: `keywords = set(skills)`, augmented with stripped
project technologies and certification names, then
`list(sorted(keywords, key=str.lower))`. -/
def keywordsOf (parsed : RawResume) : List String :=
  pySortCI (pyDedup (normalize_skills parsed.skills ++ techTokens parsed ++ certTokens parsed))

theorem mem_keywordsOf {s : String} {parsed : RawResume} :
    s ∈ keywordsOf parsed ↔
      s ∈ normalize_skills parsed.skills ∨ s ∈ techTokens parsed ∨ s ∈ certTokens parsed := by
  unfold keywordsOf pySortCI
  rw [List.mem_insertionSort, mem_pyDedup]
  simp [List.mem_append, or_assoc]

theorem nodup_keywordsOf (parsed : RawResume) : (keywordsOf parsed).Nodup :=
  (List.perm_insertionSort lowerLe _).symm.nodup (nodup_pyDedup _)

theorem sorted_keywordsOf (parsed : RawResume) : (keywordsOf parsed).Sorted lowerLe :=
  List.sorted_insertionSort lowerLe _

/-! ## The persisted Candidate Record (`structured_resume`, lines 100–148) -/

structure PersonalDetails where
  date_of_birth : String
  age : Nat
  gender : String
deriving DecidableEq

structure SocialProfiles where
  github : String
  linkedin : String
  twitter : String
  leetcode : String
  others : List String
deriving DecidableEq

structure AnalysisLists where
  strengths : List String
  gaps : List String
  matching_points : List String
  improvement_areas : List String
deriving DecidableEq

structure DetailedScoring where
  skills_match : Nat
  experience_relevance : Nat
  education_fit : Nat
  overall_potential : Nat
deriving DecidableEq

structure CompatibilityAnalysis where
  overall_score : Nat
  analysis : AnalysisLists
  detailed_scoring : DetailedScoring
deriving DecidableEq

/-- The candidate record written to the combined JSON file.  The Mongo-style
wrapper objects (`_id`, `batch_id`, `job_id`) carry the constant placeholder
text `"auto-generate"`; the two timestamps are the `datetime.utcnow()`
strings, supplied here as an explicit `now` argument. -/
structure StructuredResume where
  id_oid : String
  name : String
  email : String
  secondary_email : String
  primary_phone : String
  secondary_phone : String
  cv_directory_link : String
  unique_id : String
  designation : String
  location : String
  personal_details : PersonalDetails
  social_profiles : SocialProfiles
  education : List EducationEntry
  work_experience : List WorkEntry
  total_experience : String
  technical_skills : List String
  soft_skills : List String
  languages : List String
  certifications : List CertEntry
  projects : List Project
  keywords : List String
  batch_id_base64 : String
  job_id_oid : String
  updated_at : String
  created_at : String
  status : String
  compatibility_analysis : CompatibilityAnalysis
deriving DecidableEq

/-- Lines 100–148 of `pdf_to_json.py`: the record built for one successfully
parsed document.  `stem` is `pdf_file.stem`, `now` the UTC timestamp text. -/
def structuredResume (parsed : RawResume) (stem : String) (now : String) : StructuredResume :=
  { id_oid := "auto-generate"
    name := parsed.name
    email := parsed.email
    secondary_email := ""
    primary_phone := parsed.phone
    secondary_phone := ""
    cv_directory_link := "CVs/" ++ stem
    unique_id := stem
    designation := parsed.designation
    location := parsed.location
    personal_details := ⟨"", 0, ""⟩
    social_profiles := ⟨parsed.github, parsed.linkedin, "", "", []⟩
    education := parsed.education
    work_experience := parsed.work_experience
    total_experience := "2+ years"
    technical_skills := normalize_skills parsed.skills
    soft_skills := []
    languages := parsed.languages
    certifications := parsed.certifications
    projects := parsed.projects
    keywords := keywordsOf parsed
    batch_id_base64 := "auto-generate"
    job_id_oid := "auto-generate"
    updated_at := now
    created_at := now
    status := "New"
    compatibility_analysis := ⟨0, ⟨[], [], [], []⟩, ⟨0, 0, 0, 0⟩⟩ }

/-- A raw field map with skills `["Go"]` and one project with technologies
`["go"]`: the two case-variants of "Go" meet in the keyword set. -/
def exGoResume : RawResume := { skills := ["Go"], projects := [⟨"", "", ["go"]⟩] }

/-- C2 (counterexample).  The claim states that `keywords` is deduplicated
case-insensitively.  The keyword set is a Python `set` of strings (lines
83–97), which deduplicates by exact equality only: for skills `["Go"]` and a
project technology list `["go"]` the produced keywords contain both `"Go"`
and `"go"` — two entries with the same case-folded key, which a
case-insensitive dedup would have merged. -/
theorem C2_keywords_counterexample :
    (keywordsOf exGoResume).length = 2
    ∧ "Go" ∈ keywordsOf exGoResume
    ∧ "go" ∈ keywordsOf exGoResume
    ∧ ¬ ((keywordsOf exGoResume).map (fun s => s.data.map lowerVal)).Nodup := by
  refine ⟨by decide, by decide, by decide, by decide⟩

/-- C2 (amended).  The produced record's `keywords` is the union — deduplicated
by EXACT string equality (case-sensitively, not case-insensitively as
claimed) — of the normalized technical skills, the stripped project technology
tags, and the certification names (plain strings and name-bearing records both
accepted), sorted case-insensitively; consequently `keywords` is a superset of
the record's normalized technical skills (this consequence survives
unchanged). -/
theorem C2_keywords_amended (parsed : RawResume) (stem now : String) :
    (structuredResume parsed stem now).keywords = keywordsOf parsed
    ∧ (structuredResume parsed stem now).technical_skills = normalize_skills parsed.skills
    ∧ (keywordsOf parsed).Sorted lowerLe
    ∧ (keywordsOf parsed).Nodup
    ∧ (∀ s, s ∈ keywordsOf parsed ↔
        (s ∈ normalize_skills parsed.skills ∨ s ∈ techTokens parsed ∨ s ∈ certTokens parsed))
    ∧ (∀ s ∈ (structuredResume parsed stem now).technical_skills,
        s ∈ (structuredResume parsed stem now).keywords) := by
  refine ⟨rfl, rfl, sorted_keywordsOf parsed, nodup_keywordsOf parsed,
    fun s => mem_keywordsOf, fun s hs => ?_⟩
  exact mem_keywordsOf.mpr (Or.inl hs)

/-- C2 (witness): the amended theorem at a concrete record — the skill `"Go"`
of `exGoResume` lands in its keywords. -/
theorem C2_keywords_amended_witness : "Go" ∈ (structuredResume exGoResume "r1" "t").keywords :=
  (C2_keywords_amended exGoResume "r1" "t").2.2.2.2.2 "Go" (by decide)

/-- A raw field map with an empty-string project technology tag and a
whitespace-only plain-string certification. -/
def exEmptyTokenResume : RawResume :=
  { projects := [⟨"", "", [""]⟩], certifications := [.asStr "   "] }

/-- A raw field map whose single project technology tag contains delimiters. -/
def exParenTechResume : RawResume := { projects := [⟨"", "", ["Python (Django)"]⟩] }

/-- C9.  Technology tags and plain-string certifications are only stripped —
never split on delimiters and never filtered for emptiness — so a record whose
project carries the technology `""` (or whose certification is a
whitespace-only string) gets the empty string into its `keywords`, and a
delimiter-laden tag like `"Python (Django)"` stays whole; whereas
`normalize_skills` can never produce an empty token. -/
theorem C9_unfiltered_keyword_tokens :
    "" ∈ (structuredResume exEmptyTokenResume "r1" "t").keywords
    ∧ "" ∈ techTokens exEmptyTokenResume
    ∧ "" ∈ certTokens exEmptyTokenResume
    ∧ "Python (Django)" ∈ (structuredResume exParenTechResume "r1" "t").keywords
    ∧ (∀ skills : List String, (normalize_skills skills).all (fun t => t != "") = true) := by
  refine ⟨by decide, by decide, by decide, by decide, fun skills => ?_⟩
  rw [List.all_eq_true]
  intro t ht
  have h := mem_normalize_skills.mp ht
  simp only [skillTokens, List.mem_flatMap, List.mem_filter] at h
  obtain ⟨sk, _, _, hne⟩ := h
  exact hne

/-- C10.  Regardless of what the extraction returned for a document, the
produced record carries the constants `total_experience = "2+ years"`,
`soft_skills = []`, `status = "New"`, and a compatibility-analysis block whose
scores are all zero and whose lists are all empty (lines 121–147). -/
theorem C10_constant_fields (parsed : RawResume) (stem now : String) :
    (structuredResume parsed stem now).total_experience = "2+ years"
    ∧ (structuredResume parsed stem now).soft_skills = []
    ∧ (structuredResume parsed stem now).status = "New"
    ∧ (structuredResume parsed stem now).compatibility_analysis.overall_score = 0
    ∧ (structuredResume parsed stem now).compatibility_analysis.analysis = ⟨[], [], [], []⟩
    ∧ (structuredResume parsed stem now).compatibility_analysis.detailed_scoring = ⟨0, 0, 0, 0⟩ :=
  ⟨rfl, rfl, rfl, rfl, rfl, rfl⟩

/-! ## Batch Ingestion Pipeline (`convert_pdfs_to_json`, lines 61–161)

The directory is modelled as the list of its file names in the order the OS
enumeration (`os.scandir`, used by `pathlib.Path.glob`) yields them.
`Path.glob("*.pdf")` filters that enumeration by the pattern without sorting
it (and, unlike the `glob` module, it does match names starting with a dot),
so the model keeps the enumeration order.  The extraction chain plus
`json.loads` is the external capability `extract`: `none` models a
`json.JSONDecodeError` on the returned text. -/

/-- `fnmatch` of the pattern `*.pdf`: the name ends with `.pdf`. -/
def isPdfName (f : String) : Bool :=
  4 ≤ f.data.length && f.data.drop (f.data.length - 4) == ".pdf".data

/-- `input_path.glob("*.pdf")`: the enumeration filtered by the pattern, in
enumeration order (pathlib does not sort). -/
def pdfFiles (listing : List String) : List String := listing.filter isPdfName

/-- Index of the last `'.'` in a character list (Python `str.rfind('.')`). -/
def pyRFindDot : List Char → Option Nat
  | [] => none
  | c :: rest =>
    match pyRFindDot rest with
    | some i => some (i + 1)
    | none => if c = '.' then some 0 else none

/-- `pathlib.PurePath.stem`: the file name with its final suffix removed.  A
suffix only counts when the last dot is neither the first character (hidden
files like `".pdf"` have no suffix) nor the last one. -/
def pyStem (f : String) : String :=
  match pyRFindDot f.data with
  | none => f
  | some i => if 0 < i ∧ i < f.data.length - 1 then ⟨f.data.take i⟩ else f

/-- The `for pdf_file in input_path.glob("*.pdf")` loop body over an already
filtered file list: on parse success append the structured record, on
`json.JSONDecodeError` record the failure message target and continue.  The
second component collects the files whose failure line 153 prints. -/
def processFiles (extract : String → Option RawResume) (now : String) :
    List String → List StructuredResume × List String
  | [] => ([], [])
  | f :: fs =>
    let rest := processFiles extract now fs
    match extract f with
    | some parsed => (structuredResume parsed (pyStem f) now :: rest.1, rest.2)
    | none => (rest.1, f :: rest.2)

/-- `convert_pdfs_to_json`: returns the collected record list (also written to
the output path) and the list of skipped documents (reported on stdout). -/
def convert_pdfs_to_json (extract : String → Option RawResume) (now : String)
    (listing : List String) : List StructuredResume × List String :=
  processFiles extract now (pdfFiles listing)

theorem processFiles_spec (extract : String → Option RawResume) (now : String) :
    ∀ files : List String,
      (processFiles extract now files).1
        = files.filterMap (fun f => (extract f).map (fun parsed => structuredResume parsed (pyStem f) now))
      ∧ (processFiles extract now files).2 = files.filter (fun f => (extract f).isNone) := by
  intro files
  induction files with
  | nil => exact ⟨rfl, rfl⟩
  | cons f fs ih =>
    cases h : extract f with
    | none => simp [processFiles, h, ih.1, ih.2]
    | some parsed => simp [processFiles, h, ih.1, ih.2]

theorem processFiles_uids (extract : String → Option RawResume) (now : String) :
    ∀ files : List String,
      (processFiles extract now files).1.map (fun r => r.unique_id)
        = (files.filter (fun f => (extract f).isSome)).map pyStem := by
  intro files
  induction files with
  | nil => rfl
  | cons f fs ih =>
    cases h : extract f with
    | none => simp [processFiles, h, ih]
    | some parsed =>
      simp only [processFiles, h, List.filter_cons, Option.isSome_some, List.map_cons, if_true]
      exact congrArg (List.cons (pyStem f)) ih

/-- An extraction capability that succeeds on every document. -/
def extractAll : String → Option RawResume := fun _ => some {}

/-- An extraction capability that returns non-JSON text exactly for `b.pdf`. -/
def extractSkipB : String → Option RawResume :=
  fun f => if f = "b.pdf" then none else some {}

/-- C4.  Documents whose extraction output fails to parse as JSON are skipped
and reported (collected in the second component, printed by line 153), never
raised: the record collection holds exactly one record per successfully parsed
document; in particular three documents with one failing extraction yield two
records and one reported failure. -/
theorem C4_skip_failed_documents (extract : String → Option RawResume) (now : String)
    (listing : List String) :
    (convert_pdfs_to_json extract now listing).1.length
        = ((pdfFiles listing).filter (fun f => (extract f).isSome)).length
    ∧ (convert_pdfs_to_json extract now listing).2
        = (pdfFiles listing).filter (fun f => (extract f).isNone)
    ∧ (convert_pdfs_to_json extractSkipB "" ["a.pdf", "b.pdf", "c.pdf"]).1.length = 2
    ∧ (convert_pdfs_to_json extractSkipB "" ["a.pdf", "b.pdf", "c.pdf"]).2 = ["b.pdf"] := by
  refine ⟨?_, (processFiles_spec extract now (pdfFiles listing)).2, by decide, by decide⟩
  calc (convert_pdfs_to_json extract now listing).1.length
      = ((convert_pdfs_to_json extract now listing).1.map (fun r => r.unique_id)).length :=
        (List.length_map _ _).symm
    _ = (((pdfFiles listing).filter (fun f => (extract f).isSome)).map pyStem).length := by
        unfold convert_pdfs_to_json
        rw [processFiles_uids extract now (pdfFiles listing)]
    _ = ((pdfFiles listing).filter (fun f => (extract f).isSome)).length :=
        List.length_map _ _

/-- C5 (counterexample).  The claim states the pipeline enumerates documents
in lexical filename order.  `pathlib.Path.glob` yields `os.scandir` order and
does not sort, so for a directory whose OS enumeration is
`["b.pdf", "a.pdf"]` the produced records are in that order — not the lexical
order `["a", "b"]`. -/
theorem C5_enumeration_counterexample :
    ((convert_pdfs_to_json extractAll "" ["b.pdf", "a.pdf"]).1.map (fun r => r.unique_id))
      = ["b", "a"]
    ∧ ((convert_pdfs_to_json extractAll "" ["b.pdf", "a.pdf"]).1.map (fun r => r.unique_id))
      ≠ ["a", "b"] := by
  exact ⟨by decide, by decide⟩

/-- C5 (amended).  The record order is the directory enumeration order
restricted to the `*.pdf` files whose extraction parsed — a deterministic
function of the enumeration the OS hands to `glob`, and independent of
anything else, but NOT sorted lexically by filename: re-runs are only
order-stable to the extent the OS enumeration is. -/
theorem C5_enumeration_amended (extract : String → Option RawResume) (now : String)
    (listing : List String) :
    (convert_pdfs_to_json extract now listing).1.map (fun r => r.unique_id)
      = ((pdfFiles listing).filter (fun f => (extract f).isSome)).map pyStem :=
  processFiles_uids extract now (pdfFiles listing)

/-! ### `unique_id` injectivity (C6)

`unique_id` is `pdf_file.stem`.  For every matched name other than `".pdf"`
itself the stem is the name with the final `".pdf"` chopped off, which is
injective; the hidden file `".pdf"` keeps its full name as stem, which
collides with the stem of `".pdf.pdf"`. -/

theorem pyRFindDot_append_pdf (pre : List Char) :
    pyRFindDot (pre ++ ".pdf".data) = some pre.length := by
  induction pre with
  | nil => rfl
  | cons c pre ih => simp [pyRFindDot, ih]

theorem isPdfName_decomp {f : String} (h : isPdfName f = true) :
    f.data = f.data.take (f.data.length - 4) ++ ".pdf".data ∧ 4 ≤ f.data.length := by
  unfold isPdfName at h
  rw [Bool.and_eq_true] at h
  obtain ⟨h1, h2⟩ := h
  have h1' : 4 ≤ f.data.length := by simpa using h1
  have h2' : f.data.drop (f.data.length - 4) = ".pdf".data := by
    simpa using h2
  refine ⟨?_, h1'⟩
  conv_lhs => rw [← List.take_append_drop (f.data.length - 4) f.data]
  rw [h2']

theorem pyStem_append_pdf {f : String} (h : isPdfName f = true) (hne : f ≠ ".pdf") :
    pyStem f ++ ".pdf" = f := by
  obtain ⟨hdec, hlen⟩ := isPdfName_decomp h
  have hplen : (f.data.take (f.data.length - 4)).length = f.data.length - 4 := by
    rw [List.length_take]
    omega
  have hprene : f.data.take (f.data.length - 4) ≠ [] := by
    intro h0
    apply hne
    have hdata : f.data = ".pdf".data := by rw [hdec, h0]; rfl
    calc f = ⟨f.data⟩ := rfl
      _ = ⟨".pdf".data⟩ := by rw [hdata]
      _ = ".pdf" := rfl
  have h0pre : 0 < f.data.length - 4 := by
    by_contra h0
    push_neg at h0
    have hz : f.data.length - 4 = 0 := by omega
    apply hprene
    rw [hz]
    rfl
  have hflen : f.data.length = (f.data.length - 4) + 4 := by omega
  have hrfind : pyRFindDot f.data = some (f.data.length - 4) := by
    conv_lhs => rw [hdec]
    rw [pyRFindDot_append_pdf, hplen]
  have hcond : 0 < f.data.length - 4 ∧ f.data.length - 4 < f.data.length - 1 := by omega
  have hstem : pyStem f = ⟨f.data.take (f.data.length - 4)⟩ := by
    unfold pyStem
    rw [hrfind]
    simp only [hcond, and_self, if_true]
  rw [hstem]
  have htake : f.data.take (f.data.length - 4)
      = (f.data.take (f.data.length - 4) ++ ".pdf".data).take (f.data.length - 4) := by
    rw [List.take_left' hplen]
  calc (⟨f.data.take (f.data.length - 4)⟩ : String) ++ ".pdf"
      = ⟨f.data.take (f.data.length - 4) ++ ".pdf".data⟩ := rfl
    _ = ⟨f.data⟩ := by rw [← hdec]
    _ = f := rfl

theorem pyStem_inj_on_pdf {f g : String} (hf : isPdfName f = true) (hg : isPdfName g = true)
    (hfne : f ≠ ".pdf") (hgne : g ≠ ".pdf") (h : pyStem f = pyStem g) : f = g := by
  rw [← pyStem_append_pdf hf hfne, ← pyStem_append_pdf hg hgne, h]

/-- C6 (counterexample).  The claim asserts `unique_id` is unique within a
batch.  `Path.glob("*.pdf")` also matches the hidden name `".pdf"`, whose
`stem` is `".pdf"` itself (pathlib treats a leading dot as no suffix), and the
name `".pdf.pdf"` has the same stem — so a directory holding both yields two
records with equal `unique_id`. -/
theorem C6_unique_id_counterexample :
    ((convert_pdfs_to_json extractAll "" [".pdf", ".pdf.pdf"]).1.map (fun r => r.unique_id))
      = [".pdf", ".pdf"]
    ∧ ¬ ((convert_pdfs_to_json extractAll "" [".pdf", ".pdf.pdf"]).1.map
          (fun r => r.unique_id)).Nodup := by
  exact ⟨by decide, by decide⟩

/-- C6 (amended).  Each record's `unique_id` is `pyStem` of its source file
name — deterministic and stable across re-runs — and the ids are pairwise
distinct within a batch PROVIDED the directory entries are distinct and no
entry is the hidden name `".pdf"` (the only way two distinct `*.pdf` names can
share a stem). -/
theorem C6_unique_id_amended (extract : String → Option RawResume) (now : String)
    (listing : List String) (hnd : listing.Nodup) (hdot : ".pdf" ∉ listing) :
    ((convert_pdfs_to_json extract now listing).1.map (fun r => r.unique_id)).Nodup
    ∧ (convert_pdfs_to_json extract now listing).1.map (fun r => r.unique_id)
        = ((pdfFiles listing).filter (fun f => (extract f).isSome)).map pyStem := by
  have huids := processFiles_uids extract now (pdfFiles listing)
  refine ⟨?_, huids⟩
  unfold convert_pdfs_to_json
  rw [huids]
  have hLnd : ((pdfFiles listing).filter (fun f => (extract f).isSome)).Nodup :=
    (hnd.filter _).filter _
  refine hLnd.map_on ?_
  intro x hx y hy hxy
  have hx' : x ∈ pdfFiles listing := List.mem_of_mem_filter hx
  have hy' : y ∈ pdfFiles listing := List.mem_of_mem_filter hy
  have hxp : isPdfName x = true := (List.mem_filter.mp hx').2
  have hyp : isPdfName y = true := (List.mem_filter.mp hy').2
  have hxl : x ∈ listing := List.mem_of_mem_filter hx'
  have hyl : y ∈ listing := List.mem_of_mem_filter hy'
  have hxne : x ≠ ".pdf" := fun hq => hdot (hq ▸ hxl)
  have hyne : y ≠ ".pdf" := fun hq => hdot (hq ▸ hyl)
  exact pyStem_inj_on_pdf hxp hyp hxne hyne hxy

/-- C6 (witness): the amended theorem at a two-file directory. -/
theorem C6_unique_id_amended_witness :
    ((convert_pdfs_to_json extractAll "" ["a.pdf", "b.pdf"]).1.map
      (fun r => r.unique_id)).Nodup :=
  (C6_unique_id_amended extractAll "" ["a.pdf", "b.pdf"] (by decide) (by decide)).1

/-! ## Query Retrieval Engine: merging evidence per candidate
(`json_resume_query.py`, lines 83–95)

Retrieved chunks arrive as documents carrying the metadata
`{name, unique_id, designation}` copied from their parent record (lines
41–46).  The merge loop groups them into `merged_context`, a
`defaultdict(list)` — a Python ≥3.7 dict, which iterates keys in insertion
(first-seen) order — appending to each candidate's list the chunk text
prefixed by that candidate's identifying metadata. -/

structure ChunkMeta where
  name : String
  unique_id : String
  designation : String
deriving DecidableEq

structure Chunk where
  page_content : String
  metadata : ChunkMeta
deriving DecidableEq

/-- The f-string prefix of lines 87–90. -/
def candidateHeader (m : ChunkMeta) : String :=
  "Candidate Name: " ++ m.name ++ "\n" ++
  "Designation: " ++ m.designation ++ "\n" ++
  "Resume ID: " ++ m.unique_id ++ "\n" ++
  "Resume Content:\n"

/-- The string appended to `merged_context[uid]` for one retrieved chunk. -/
def entryText (d : Chunk) : String := candidateHeader d.metadata ++ d.page_content

/-- `merged_context[k].append(v)` on an insertion-ordered dict modelled as an
association list: append to the existing entry for `k`, or add a new key at
the end. -/
def addToGroup (m : List (String × List String)) (k : String) (v : String) :
    List (String × List String) :=
  match m with
  | [] => [(k, [v])]
  | (k', vs) :: rest =>
    if k' = k then (k', vs ++ [v]) :: rest else (k', vs) :: addToGroup rest k v

/-- The merge loop of lines 83–91. -/
def mergedContext (docs : List Chunk) : List (String × List String) :=
  docs.foldl (fun m d => addToGroup m d.metadata.unique_id (entryText d)) []

/-- The evidence list the spec ascribes to candidate `k`: the texts of exactly
those retrieved chunks whose metadata `unique_id` is `k`, in retrieval order. -/
def groupFor (docs : List Chunk) (k : String) : List String :=
  (docs.filter (fun d => d.metadata.unique_id == k)).map entryText

/-- The whole grouped mapping: first-seen key order, one block per key. -/
def groupsSpec (docs : List Chunk) : List (String × List String) :=
  (pyDedup (docs.map (fun d => d.metadata.unique_id))).map (fun k => (k, groupFor docs k))

theorem pyDedup_append_singleton (l : List String) (a : String) :
    pyDedup (l ++ [a]) = if a ∈ l then pyDedup l else pyDedup l ++ [a] := by
  induction l with
  | nil => simp [pyDedup]
  | cons b l ih =>
    by_cases hal : a ∈ l
    · simp [pyDedup, ih, hal, List.mem_cons]
    · by_cases hab : a = b
      · subst hab
        simp [pyDedup, ih, hal, List.filter_append]
      · simp [pyDedup, ih, hal, hab, List.filter_append, Ne.symm hab]

theorem addToGroup_map (K : List String) (F : String → List String) (u v : String)
    (hnd : K.Nodup) :
    addToGroup (K.map (fun k => (k, F k))) u v
      = if u ∈ K
        then K.map (fun k => (k, if k = u then F k ++ [v] else F k))
        else K.map (fun k => (k, F k)) ++ [(u, [v])] := by
  induction K with
  | nil => simp [addToGroup]
  | cons k K ih =>
    rcases hnd with _ | ⟨hkK, hndK⟩
    by_cases hku : k = u
    · subst hku
      have htail : K.map (fun k' => (k', if k' = k then F k' ++ [v] else F k'))
          = K.map (fun k' => (k', F k')) := by
        refine List.map_congr_left ?_
        intro x hx
        have hxk : x ≠ k := Ne.symm (hkK x hx)
        simp [hxk]
      simp [addToGroup, htail]
    · have hne : u ≠ k := fun h => hku h.symm
      simp only [List.map_cons, addToGroup, if_neg hku, ih hndK]
      by_cases huK : u ∈ K
      · simp [huK, List.mem_cons, hne, hku]
      · simp [huK, List.mem_cons, hne, hku]

theorem groupFor_append (docs : List Chunk) (d : Chunk) (k : String) :
    groupFor (docs ++ [d]) k
      = if d.metadata.unique_id = k
        then groupFor docs k ++ [entryText d]
        else groupFor docs k := by
  by_cases h : d.metadata.unique_id = k
  · simp [groupFor, List.filter_append, h]
  · simp [groupFor, List.filter_append, h]

theorem groupFor_eq_nil {docs : List Chunk} {k : String}
    (h : k ∉ docs.map (fun d => d.metadata.unique_id)) : groupFor docs k = [] := by
  unfold groupFor
  rw [List.filter_eq_nil_iff.mpr, List.map_nil]
  intro d hd
  simp only [beq_iff_eq]
  intro hdk
  exact h (List.mem_map.mpr ⟨d, hd, hdk⟩)

theorem mergedContext_eq (docs : List Chunk) : mergedContext docs = groupsSpec docs := by
  induction docs using List.reverseRecOn with
  | nil => rfl
  | append_singleton docs d ih =>
    have hstep : mergedContext (docs ++ [d])
        = addToGroup (mergedContext docs) d.metadata.unique_id (entryText d) := by
      simp [mergedContext, List.foldl_append]
    rw [hstep, ih]
    unfold groupsSpec
    rw [addToGroup_map _ _ _ _ (nodup_pyDedup _)]
    have hmapuid : (docs ++ [d]).map (fun d => d.metadata.unique_id)
        = docs.map (fun d => d.metadata.unique_id) ++ [d.metadata.unique_id] := by
      simp
    by_cases hu : d.metadata.unique_id ∈ docs.map (fun d => d.metadata.unique_id)
    · rw [if_pos (mem_pyDedup.mpr hu), hmapuid, pyDedup_append_singleton, if_pos hu]
      refine List.map_congr_left ?_
      intro k _
      have hflip : (if k = d.metadata.unique_id
            then groupFor docs k ++ [entryText d] else groupFor docs k)
          = groupFor (docs ++ [d]) k := by
        rw [groupFor_append]
        by_cases hk : k = d.metadata.unique_id
        · rw [if_pos hk, if_pos hk.symm]
        · rw [if_neg hk, if_neg (fun h => hk h.symm)]
      rw [hflip]
    · rw [if_neg (fun hmem => hu (mem_pyDedup.mp hmem)), hmapuid,
        pyDedup_append_singleton, if_neg hu, List.map_append]
      congr 1
      · refine List.map_congr_left ?_
        intro k hk
        have hne : d.metadata.unique_id ≠ k := by
          intro he
          exact hu (he ▸ mem_pyDedup.mp hk)
        rw [groupFor_append, if_neg hne]
      · simp only [List.map_cons, List.map_nil]
        rw [groupFor_append, if_pos rfl, groupFor_eq_nil hu]
        simp

/-- C3.  The merge step groups retrieved chunks by their metadata `unique_id`,
keys appearing in first-seen retrieval order; the block stored under a key
consists exactly of the (retrieval-ordered) texts of the chunks whose metadata
`unique_id` equals that key; and each stored text is the chunk's content
prefixed with that candidate's name, designation and id. -/
theorem C3_merge_grouping (docs : List Chunk) :
    (mergedContext docs).map Prod.fst
        = pyDedup (docs.map (fun d => d.metadata.unique_id))
    ∧ (∀ k vs, (k, vs) ∈ mergedContext docs →
        vs = (docs.filter (fun d => d.metadata.unique_id == k)).map entryText)
    ∧ (∀ k vs, (k, vs) ∈ mergedContext docs → ∀ t ∈ vs,
        ∃ d, d ∈ docs ∧ d.metadata.unique_id = k
          ∧ t = candidateHeader d.metadata ++ d.page_content) := by
  rw [mergedContext_eq]
  refine ⟨?_, ?_, ?_⟩
  · rw [groupsSpec, List.map_map]
    have hfst : (Prod.fst ∘ fun k => (k, groupFor docs k)) = id := rfl
    rw [hfst, List.map_id]
  · intro k vs hmem
    simp only [groupsSpec, List.mem_map] at hmem
    obtain ⟨k', _, heq⟩ := hmem
    have hk : k' = k := congrArg Prod.fst heq
    have hv : groupFor docs k' = vs := congrArg Prod.snd heq
    rw [← hv, hk]
    rfl
  · intro k vs hmem t ht
    simp only [groupsSpec, List.mem_map] at hmem
    obtain ⟨k', _, heq⟩ := hmem
    have hk : k' = k := congrArg Prod.fst heq
    have hv : groupFor docs k' = vs := congrArg Prod.snd heq
    rw [← hv, hk] at ht
    simp only [groupFor, List.mem_map, List.mem_filter, beq_iff_eq] at ht
    obtain ⟨d, ⟨hd, hdk⟩, hdt⟩ := ht
    exact ⟨d, hd, hdk, hdt.symm⟩

/-- Three retrieved chunks for two candidates, candidate `r2` seen first and
again third: grouping must put `r2` first and keep its two chunks in order. -/
def exChunkA : Chunk := ⟨"chunk one", ⟨"Alice", "r2", "Engineer"⟩⟩

def exChunkB : Chunk := ⟨"chunk two", ⟨"Bob", "r1", "Analyst"⟩⟩

def exChunkC : Chunk := ⟨"chunk three", ⟨"Alice", "r2", "Engineer"⟩⟩

/-- C3 (witness): the grouping theorem applied to the three concrete chunks,
its membership hypothesis discharged by evaluation. -/
theorem C3_merge_grouping_witness :
    [entryText exChunkA, entryText exChunkC]
      = ([exChunkA, exChunkB, exChunkC].filter
          (fun d => d.metadata.unique_id == "r2")).map entryText :=
  (C3_merge_grouping [exChunkA, exChunkB, exChunkC]).2.1 "r2"
    [entryText exChunkA, entryText exChunkC] (by decide)

/-! ## Corpus Indexer: chunking (`json_resume_query.py`, lines 49–50)

Modelled from the spec: the repository's only chunking code is the constructor
call `RecursiveCharacterTextSplitter(chunk_size=700, chunk_overlap=50)` — the
splitting algorithm itself lives in the external text-splitter library, which
the spec treats as out of scope.  Spec §4.4 specifies the chunking contract:
"split into overlapping fixed-size chunks (fixed maximum chunk length, fixed
overlap length — overlap strictly less than max length)", with chunk
boundaries a pure function of chunk size, overlap and input text.  That
contract is modelled here as the sliding-window splitter: windows of length
`L` advancing by `L - O` characters, the last window holding the remainder. -/

/-- Modelled from the spec: fixed-size overlapping windows, fuel-structured so
the kernel can evaluate it (the fuel `n` is always started at `s.length`,
which the lemmas show is enough). -/
def specChunksFuel (L O : Nat) : Nat → List Char → List (List Char)
  | 0, s => [s]
  | n + 1, s =>
    if s.length ≤ L ∨ L - O = 0 then [s]
    else s.take L :: specChunksFuel L O n (s.drop (L - O))

/-- Modelled from the spec: the chunks of a document text for maximum chunk
length `L` and overlap `O`. -/
def specChunks (L O : Nat) (s : List Char) : List (List Char) :=
  specChunksFuel L O s.length s

/-- Concatenating chunks with the overlaps removed: the first chunk whole,
every later chunk with its first `O` characters (the overlap with its
predecessor) dropped. -/
def reassemble (O : Nat) : List (List Char) → List Char
  | [] => []
  | c :: cs => c ++ (cs.map (fun t => t.drop O)).flatten

theorem specChunksFuel_length_le (L O : Nat) (hO : O < L) :
    ∀ n (s : List Char), s.length ≤ n → ∀ c ∈ specChunksFuel L O n s, c.length ≤ L := by
  intro n
  induction n with
  | zero =>
    intro s hs c hc
    simp only [specChunksFuel, List.mem_singleton] at hc
    subst hc
    omega
  | succ n ih =>
    intro s hs c hc
    by_cases hcond : s.length ≤ L ∨ L - O = 0
    · rw [specChunksFuel, if_pos hcond] at hc
      simp only [List.mem_singleton] at hc
      subst hc
      rcases hcond with h | h
      · exact h
      · omega
    · rw [specChunksFuel, if_neg hcond] at hc
      rcases List.mem_cons.mp hc with hc | hc
      · subst hc
        rw [List.length_take]
        omega
      · refine ih (s.drop (L - O)) ?_ c hc
        rw [List.length_drop]
        omega

theorem specChunksFuel_tail_flat (L O : Nat) (hO : O < L) :
    ∀ n (s : List Char), s.length ≤ n →
      ((specChunksFuel L O n s).map (fun t => t.drop O)).flatten = s.drop O := by
  intro n
  induction n with
  | zero =>
    intro s hs
    have hnil : s = [] := List.eq_nil_of_length_eq_zero (by omega)
    subst hnil
    simp [specChunksFuel]
  | succ n ih =>
    intro s hs
    by_cases hcond : s.length ≤ L ∨ L - O = 0
    · rw [specChunksFuel, if_pos hcond]
      simp
    · rw [specChunksFuel, if_neg hcond]
      simp only [List.map_cons, List.flatten_cons]
      rw [ih (s.drop (L - O)) (by rw [List.length_drop]; omega)]
      rw [List.drop_take, List.drop_drop]
      have hLO : L - O + O = L := by omega
      rw [hLO]
      have hL : s.drop L = (s.drop O).drop (L - O) := by
        rw [List.drop_drop]
        have : O + (L - O) = L := by omega
        rw [this]
      rw [hL, List.take_append_drop]

/-- C7.  For any document text and chunk parameters `L`, `O` with `O < L`, no
produced chunk exceeds length `L`, and concatenating the chunks with the
overlaps removed reconstructs the original text exactly.  Boundaries are a
pure function of `L`, `O` and the text by construction (`specChunks` is a
function of exactly those arguments). -/
theorem C7_chunking (L O : Nat) (s : List Char) (hO : O < L) :
    (∀ c ∈ specChunks L O s, c.length ≤ L)
    ∧ reassemble O (specChunks L O s) = s := by
  constructor
  · exact specChunksFuel_length_le L O hO s.length s le_rfl
  · unfold specChunks
    cases hn : s.length with
    | zero =>
      have hnil : s = [] := List.eq_nil_of_length_eq_zero hn
      subst hnil
      rfl
    | succ n =>
      by_cases hcond : s.length ≤ L ∨ L - O = 0
      · rw [specChunksFuel, if_pos hcond]
        simp [reassemble]
      · rw [specChunksFuel, if_neg hcond]
        simp only [reassemble]
        rw [specChunksFuel_tail_flat L O hO n (s.drop (L - O)) (by rw [List.length_drop]; omega)]
        rw [List.drop_drop]
        have hLO : L - O + O = L := by omega
        rw [hLO, List.take_append_drop]

/-- C7 (witness): with `L = 3`, `O = 1` the text `"abcde"` splits into
`"abc"`, `"cde"` (one character of overlap) and reassembles exactly. -/
theorem C7_chunking_witness :
    (1 : Nat) < 3
    ∧ ((∀ c ∈ specChunks 3 1 "abcde".data, c.length ≤ 3)
        ∧ reassemble 1 (specChunks 3 1 "abcde".data) = "abcde".data) :=
  ⟨by decide, C7_chunking 3 1 "abcde".data (by decide)⟩

/-! ## Structured Answer Generator: result display
(`json_resume_query.py`, lines 104–108)

The final LLM response is handed to `json.loads` exactly once.  The JSON
parser is external stdlib code, modelled as an abstract capability
`loads : String → Option JsonValue` (`none` models `json.JSONDecodeError`).
No retry exists anywhere in the script: the query is processed by a single
straight-line pass. -/

/-- A JSON value (the shape `json.loads` can return). -/
inductive JsonValue where
  | null
  | bool (b : Bool)
  | num (n : Int)
  | str (s : String)
  | arr (elements : List JsonValue)
  | obj (fields : List (String × JsonValue))

/-- What the operator sees: either the parsed value pretty-printed
(`json.dumps(parsed_json, indent=2)`), or — verbatim — the raw response text
behind the explicit notice `"Model returned invalid JSON. Raw output:"`. -/
inductive DisplayOutcome where
  | prettyJson (j : JsonValue)
  | invalidNotice (raw : String)

/-- Lines 104–108: the try/except around `json.loads(response)`. -/
def displayResult (loads : String → Option JsonValue) (response : String) : DisplayOutcome :=
  match loads response with
  | some j => .prettyJson j
  | none => .invalidNotice response

/-- C8.  If the response parses as JSON, the parsed value is pretty-printed;
if it does not, the raw text is surfaced as-is behind an explicit
invalid-JSON notice, and in that case no pretty-printed (schema-shaped)
output is ever produced — the raw text is never synthesized into the output
schema.  The query is not retried: `displayResult` is invoked exactly once
per query on the single response. -/
theorem C8_display_outcome (loads : String → Option JsonValue) (response : String) :
    (∀ j, loads response = some j → displayResult loads response = .prettyJson j)
    ∧ (loads response = none → displayResult loads response = .invalidNotice response)
    ∧ (∀ j, loads response = none → displayResult loads response ≠ .prettyJson j) := by
  refine ⟨fun j h => ?_, fun h => ?_, fun j h => ?_⟩
  · unfold displayResult
    rw [h]
  · unfold displayResult
    rw [h]
  · unfold displayResult
    rw [h]
    intro hfalse
    cases hfalse

/-- C8 (witness): the theorem at a parsing and at a non-parsing capability. -/
theorem C8_display_outcome_witness :
    displayResult (fun _ => some (JsonValue.str "ok")) "resp"
      = DisplayOutcome.prettyJson (JsonValue.str "ok")
    ∧ displayResult (fun _ => none) "resp" = DisplayOutcome.invalidNotice "resp" :=
  ⟨(C8_display_outcome (fun _ => some (JsonValue.str "ok")) "resp").1 (JsonValue.str "ok") rfl,
   (C8_display_outcome (fun _ => none) "resp").2.1 rfl⟩

end ResumeQuery
